import Mathlib

/-!
Shallow embedding of the batch-fetch-and-aggregate core of `src/index.ts`
(a Cloudflare Worker that aggregates usage data for many API keys), together
with theorems settling the specification claims.

Modelling conventions:
* JS strings that are only sliced character-wise (the API-key secrets) are
  modelled as `List Char`; identifiers and error messages stay `String`.
* JS numbers holding token counts are modelled as `Int`; `usedRatio` as `Rat`.
* The HTTP layer is an oracle: `fetchApiKeyData` receives the outcome of each
  attempt as a function `Nat → FetchOutcome`, and `getAggregatedData` receives
  the per-key result as a function `ApiKey → ApiKeyResult`.
* `await setTimeout(...)` sleeps are modelled by accumulating slept
  milliseconds; the wall-clock pacing of `batchProcess` by counting delays.
* The `for (let i = 0; i < items.length; i += concurrency)` loop of
  `batchProcess` is embedded with explicit fuel, since for `concurrency ≤ 0`
  it does not terminate.
* Date formatting (`formatDate`, `formatBeijingTime`) is kept abstract: the
  embedded functions take the already-formatted strings / a formatter as a
  parameter, since no claim depends on calendar arithmetic.
-/

namespace DroidApikey

/-- `interface ApiKey { id: string; key: string }` — a stored credential. -/
structure ApiKey where
  id : String
  key : List Char
deriving Repr, DecidableEq

/-- `interface ApiUsageData` — the success shape of a per-key result. -/
structure ApiUsageData where
  id : String
  key : List Char
  startDate : String
  endDate : String
  orgTotalTokensUsed : Int
  totalAllowance : Int
  usedRatio : Rat
deriving Repr, DecidableEq

/-- `interface ApiErrorData` — the failure shape of a per-key result. -/
structure ApiErrorData where
  id : String
  key : List Char
  error : String
deriving Repr, DecidableEq

/-- `type ApiKeyResult = ApiUsageData | ApiErrorData`, embedded as a tagged
union; the TS code discriminates by presence of the `error` field. -/
inductive ApiKeyResult where
  | usage (d : ApiUsageData)
  | err (e : ApiErrorData)
deriving Repr, DecidableEq

/-- The `id` field of either variant of an `ApiKeyResult`. -/
def ApiKeyResult.rid : ApiKeyResult → String
  | .usage d => d.id
  | .err e => e.id

/-- `const isApiUsageData = (result) => !('error' in result)` — type guard. -/
def isApiUsageData : ApiKeyResult → Bool
  | .usage _ => true
  | .err _ => false

/-- `'error' in r` — the complementary discriminator used for the error tail
`results.filter(r => 'error' in r)`. -/
def hasError (r : ApiKeyResult) : Bool := !(isApiUsageData r)

/-- `interface UsageTotals`. -/
structure UsageTotals where
  total_orgTotalTokensUsed : Int
  total_totalAllowance : Int
  totalRemaining : Int
deriving Repr, DecidableEq

/-- `interface AggregatedResponse`. -/
structure AggregatedResponse where
  update_time : String
  total_count : Nat
  totals : UsageTotals
  data : List ApiKeyResult
deriving Repr, DecidableEq

/-! ### Configuration (`CONFIG`) — only the masking lengths matter here. -/

/-- `CONFIG.KEY_MASK_PREFIX_LENGTH`. -/
def KEY_MASK_PREFIX_LENGTH : Nat := 4

/-- `CONFIG.KEY_MASK_SUFFIX_LENGTH`. -/
def KEY_MASK_SUFFIX_LENGTH : Nat := 4

/-! ### Utility functions -/

/-- `maskApiKey` from `src/index.ts`:
```
if (key.length <= PREFIX + SUFFIX) return `${key.substring(0, PREFIX)}...`;
return `${key.substring(0, PREFIX)}...${key.substring(key.length - SUFFIX)}`;
```
`substring(0, n)` is `take n`, `substring(len - n)` is `drop (len - n)`. -/
def maskApiKey (key : List Char) : List Char :=
  if key.length ≤ KEY_MASK_PREFIX_LENGTH + KEY_MASK_SUFFIX_LENGTH then
    key.take KEY_MASK_PREFIX_LENGTH ++ "...".toList
  else
    key.take KEY_MASK_PREFIX_LENGTH ++ "...".toList
      ++ key.drop (key.length - KEY_MASK_SUFFIX_LENGTH)

/-- `getDisplayKey(key, isLoggedIn) = isLoggedIn ? key : maskApiKey(key)`. -/
def getDisplayKey (key : List Char) (isLoggedIn : Bool) : List Char :=
  if isLoggedIn then key else maskApiKey key

/-! ### Server state and caching (`class ServerState`) -/

/-- The fields of `class ServerState`: the single-slot refresh cache. -/
structure ServerState where
  cachedData : Option AggregatedResponse
  lastError : Option String
  isUpdating : Bool
deriving Repr, DecidableEq

namespace ServerState

/-- `updateCache(data)`: stores the snapshot, clears the error, ends update. -/
def updateCache (s : ServerState) (data : AggregatedResponse) : ServerState :=
  { s with cachedData := some data, lastError := none, isUpdating := false }

/-- `setError(msg)`: records the error and ends the update; `cachedData`
is not assigned. -/
def setError (s : ServerState) (errorMessage : String) : ServerState :=
  { s with lastError := some errorMessage, isUpdating := false }

/-- `startUpdate()`: sets the in-progress flag. -/
def startUpdate (s : ServerState) : ServerState :=
  { s with isUpdating := true }

/-- `clearCache()`: sets `cachedData = null`, `lastError = null`, and also
`isUpdating = false`. -/
def clearCache (_s : ServerState) : ServerState :=
  { cachedData := none, lastError := none, isUpdating := false }

end ServerState

/-- The synchronous prefix of `autoRefreshData`: the guard
`if (serverState.isCurrentlyUpdating()) return;` followed by
`serverState.startUpdate()`. Returns the new state and whether a fetch
cycle was initiated by this call. -/
def autoRefreshBegin (s : ServerState) : ServerState × Bool :=
  if s.isUpdating then (s, false) else (s.startUpdate, true)

/-- `n` consecutive calls to the `autoRefreshBegin` prefix, none of which has
completed in between; returns the final state and how many of the calls
initiated an underlying fetch cycle. -/
def runBegins (s : ServerState) : Nat → ServerState × Nat
  | 0 => (s, 0)
  | n + 1 =>
      let (s', b) := autoRefreshBegin s
      let (s'', k) := runBegins s' n
      (s'', (if b then 1 else 0) + k)

/-! ### Batch processing (`batchProcess`) -/

/-- One completed run of the `batchProcess` loop: the collected results, the
size of each chunk that was issued concurrently (each chunk is one
`Promise.all` — its size is the number of simultaneously pending tasks), and
the number of inter-chunk pacing delays awaited. -/
structure BatchRun (R : Type) where
  results : List R
  chunkSizes : List Nat
  delays : Nat
deriving Repr, DecidableEq

/-- The loop body of `batchProcess`:
```
for (let i = 0; i < items.length; i += concurrency) {
  const batch = items.slice(i, i + concurrency);
  results.push(...await Promise.all(batch.map(processor)));
  if (i + concurrency < items.length) await delay;
}
```
embedded with explicit fuel because for `concurrency ≤ 0` the loop never
exits (`i` never reaches `items.length`). The index is an `Int` since a
negative `concurrency` drives it negative. `items.slice(i, i + c)` is
`(items.drop i).take c` on the non-negative indices the terminating runs
visit; on a run that never exits the accumulated fields are unobservable
(the function returns `none`). `none` means the fuel ran out with the loop
still going. -/
def batchLoop {T R : Type} (processor : T → R) (items : List T) (c : Int) :
    Nat → Int → BatchRun R → Option (BatchRun R)
  | 0, _, _ => none
  | fuel + 1, i, acc =>
      if i < (items.length : Int) then
        let batch := (items.drop i.toNat).take c.toNat
        batchLoop processor items c fuel (i + c)
          { results := acc.results ++ batch.map processor
            chunkSizes := acc.chunkSizes ++ [batch.length]
            delays := acc.delays + (if i + c < (items.length : Int) then 1 else 0) }
      else
        some acc

/-- `batchProcess(items, processor, concurrency, delayMs)` — the whole call,
starting from `i = 0` with empty accumulators. -/
def batchProcess {T R : Type} (items : List T) (processor : T → R)
    (concurrency : Int) (fuel : Nat) : Option (BatchRun R) :=
  batchLoop processor items concurrency fuel 0 ⟨[], [], 0⟩

/-! ### The usage client (`fetchApiKeyData`) -/

/-- The `usage.standard` object of an `ApiResponse`. Each numeric field is
optional because the code applies `|| 0` to it: a missing (or zero) field is
read as `0`, not treated as an error. -/
structure StandardUsage where
  orgTotalTokensUsed : Option Int
  totalAllowance : Option Int
  usedRatio : Option Rat
deriving Repr, DecidableEq

/-- The `usage` object of an `ApiResponse`; `standard` is optional because the
code guards on `usage?.standard`. -/
structure UsagePayload where
  startDate : Option Int
  endDate : Option Int
  standard : Option StandardUsage
deriving Repr, DecidableEq

/-- Outcome of `await response.json()` on an OK response: either it raises
(caught by the surrounding `try`), or it parses to a body whose `usage` field
may be absent. -/
inductive BodyOutcome where
  | jsonThrows
  | parsed (usage : Option UsagePayload)
deriving Repr, DecidableEq

/-- Outcome of one `fetch(...)` attempt: a network-level failure that raises,
or a response with a status code and a body. -/
inductive FetchOutcome where
  | throws
  | resp (status : Nat) (body : BodyOutcome)
deriving Repr, DecidableEq

/-- `response.ok` — status in the inclusive range 200–299. -/
def responseOk (status : Nat) : Bool := 200 ≤ status && status ≤ 299

/-- `const maxRetries = 2` in `fetchApiKeyData`. -/
def fetchMaxRetries : Nat := 2

/-- `fetchApiKeyData(id, key, isLoggedIn, retryCount)`. The HTTP layer is an
oracle `fetchSeq` giving the outcome of each attempt, and `fmtDate` stands
for `formatDate` composed with the epoch→ISO conversion (no claim depends on
calendar arithmetic). Returns the per-key result together with the total
milliseconds slept in 401 back-off delays (`(retryCount + 1) * 1000`).
All failures are converted into an `ApiErrorData`; the function is total, so
no exception ever reaches the caller. -/
def fetchApiKeyData (fetchSeq : Nat → FetchOutcome)
    (fmtDate : Option Int → String) (id : String) (key : List Char)
    (isLoggedIn : Bool) (retryCount : Nat) : ApiKeyResult × Nat :=
  let displayKey := getDisplayKey key isLoggedIn
  match fetchSeq retryCount with
  | .throws => (.err ⟨id, displayKey, "Failed to fetch"⟩, 0)
  | .resp status body =>
      if responseOk status = false then
        if _h : status = 401 ∧ retryCount < fetchMaxRetries then
          let delayMs := (retryCount + 1) * 1000
          let rec_result :=
            fetchApiKeyData fetchSeq fmtDate id key isLoggedIn (retryCount + 1)
          (rec_result.1, delayMs + rec_result.2)
        else
          (.err ⟨id, displayKey, "HTTP " ++ toString status⟩, 0)
      else
        match body with
        | .jsonThrows => (.err ⟨id, displayKey, "Failed to fetch"⟩, 0)
        | .parsed none => (.err ⟨id, displayKey, "Invalid API response"⟩, 0)
        | .parsed (some usage) =>
            match usage.standard with
            | none => (.err ⟨id, displayKey, "Invalid API response"⟩, 0)
            | some standard =>
                (.usage ⟨id, displayKey, fmtDate usage.startDate,
                  fmtDate usage.endDate, standard.orgTotalTokensUsed.getD 0,
                  standard.totalAllowance.getD 0, standard.usedRatio.getD 0⟩, 0)
termination_by fetchMaxRetries - retryCount
decreasing_by simp [fetchMaxRetries] at *; omega

/-! ### Data aggregation (`getAggregatedData`) -/

/-- The payload of a success record, `none` for an error record; this is the
`results.filter(isApiUsageData)` projection into `ApiUsageData[]`. -/
def usageOf : ApiKeyResult → Option ApiUsageData
  | .usage d => some d
  | .err _ => none

/-- `remaining = Math.max(0, r.totalAllowance - r.orgTotalTokensUsed)` — the
derived per-key remaining balance, floored at zero. -/
def remainingOf (r : ApiUsageData) : Int :=
  max 0 (r.totalAllowance - r.orgTotalTokensUsed)

/-- The order realised by `.sort((a, b) => b.remaining - a.remaining)`:
`a` may precede `b` exactly when `a`'s remaining is at least `b`'s. -/
def byRemainingDesc (a b : ApiUsageData) : Prop :=
  remainingOf b ≤ remainingOf a

instance : DecidableRel byRemainingDesc :=
  fun a b => inferInstanceAs (Decidable (remainingOf b ≤ remainingOf a))

/-- The accumulator step of the `validResults.reduce(...)` computing totals:
`used` and `allowance` are summed as-is, while `totalRemaining` accumulates
the per-key floored remaining. -/
def totalsStep (acc : UsageTotals) (res : ApiUsageData) : UsageTotals :=
  { total_orgTotalTokensUsed := acc.total_orgTotalTokensUsed + res.orgTotalTokensUsed
    total_totalAllowance := acc.total_totalAllowance + res.totalAllowance
    totalRemaining := acc.totalRemaining
      + max 0 (res.totalAllowance - res.orgTotalTokensUsed) }

/-- `getAggregatedData(kv, isLoggedIn)`. The KV read (`getAllKeys`) is the
parameter `keyPairs`; the awaited `batchProcess(keyPairs, fetchApiKeyData…)`
is the parameter `fetchResult` applied to each pair in order (see
`batchProcess_termination`: with concurrency 10 the scheduler returns exactly
the in-order map); `update_time` stands for the formatted Beijing time. The
`.map(add remaining).sort((a, b) => b.remaining - a.remaining).map(strip)`
pipeline is the stable descending sort by the derived key, embedded as
`insertionSort byRemainingDesc` (which is stable and realises exactly the
stable-sort semantics of `Array.prototype.sort`). `logKeysWithBalance` only
writes to the console and is not part of the returned value. -/
def getAggregatedData (keyPairs : List ApiKey)
    (fetchResult : ApiKey → ApiKeyResult) (update_time : String) :
    AggregatedResponse :=
  let emptyTotals : UsageTotals := ⟨0, 0, 0⟩
  if keyPairs.length = 0 then
    ⟨update_time, 0, emptyTotals, []⟩
  else
    let results := keyPairs.map fetchResult
    let validResults := results.filterMap usageOf
    let sortedValid := validResults.insertionSort byRemainingDesc
    let totals := validResults.foldl totalsStep emptyTotals
    ⟨update_time, keyPairs.length, totals,
      sortedValid.map ApiKeyResult.usage ++ results.filter hasError⟩

end DroidApikey

namespace DroidApikey

/-! ### Theorems: masking (C8, C9) and the cache state machine (C3, C6, C7) -/

/-- C8: masking `"fk-ABCDEFGHIJKL"` with prefix 4 and suffix 4 under
`revealSecret = false` yields `"fk-A...IJKL"`, and with `revealSecret = true`
every secret is returned unchanged. -/
theorem getDisplayKey_mask_spec :
    getDisplayKey "fk-ABCDEFGHIJKL".toList false = "fk-A...IJKL".toList ∧
    ∀ key : List Char, getDisplayKey key true = key := by
  constructor
  · decide
  · intro key
    simp [getDisplayKey]

/-- C9: for a secret of length at most 8 (= prefix 4 + suffix 4) the mask is
the first 4 characters followed by `"..."` with no suffix, and for a secret
of length at most 4 the whole secret appears verbatim before the `"..."`. -/
theorem maskApiKey_short_secret (key : List Char) (h : key.length ≤ 8) :
    maskApiKey key = key.take 4 ++ "...".toList ∧
    (key.length ≤ 4 → maskApiKey key = key ++ "...".toList) := by
  have hmask : maskApiKey key = key.take 4 ++ "...".toList := by
    simp [maskApiKey, KEY_MASK_PREFIX_LENGTH, KEY_MASK_SUFFIX_LENGTH, h]
  refine ⟨hmask, fun h4 => ?_⟩
  rw [hmask, List.take_of_length_le h4]

/-- Witness for `maskApiKey_short_secret` at the concrete secret `"fk-A1"`. -/
theorem maskApiKey_short_secret_witness :
    maskApiKey "fk-A1".toList = "fk-A1".toList.take 4 ++ "...".toList ∧
    ("fk-A1".toList.length ≤ 4 →
      maskApiKey "fk-A1".toList = "fk-A1".toList ++ "...".toList) :=
  maskApiKey_short_secret "fk-A1".toList (by decide)

/-- C3 counterexample: `clearCache` does NOT leave `isUpdating` unchanged.
Starting from the state with `isUpdating = true` (and empty cache fields),
after `clearCache()` the flag is `false`, not `true`. -/
theorem clearCache_changes_isUpdating :
    ¬ ((ServerState.clearCache ⟨none, none, true⟩).isUpdating
        = (⟨none, none, true⟩ : ServerState).isUpdating) := by
  decide

/-- C3 amended: `clearCache()` clears `cachedData` and `lastError`, and also
resets `isUpdating` to `false` (so the flag is preserved only when it was
already `false`). -/
theorem clearCache_spec (s : ServerState) :
    (s.clearCache).cachedData = none ∧
    (s.clearCache).lastError = none ∧
    (s.clearCache).isUpdating = false := by
  refine ⟨rfl, rfl, rfl⟩

/-- C7: `setError` turns off `isUpdating`, records the message in `lastError`,
and leaves `cachedData` exactly as it was; in particular after a prior
`updateCache d` (plus any `startUpdate`), a failure still shows snapshot `d`. -/
theorem setError_preserves_snapshot (s : ServerState) (d : AggregatedResponse)
    (msg : String) (hsnap : s.cachedData = some d) :
    (s.setError msg).cachedData = some d ∧
    (s.setError msg).lastError = some msg ∧
    (s.setError msg).isUpdating = false ∧
    (((s.updateCache d).startUpdate).setError msg).cachedData = some d := by
  refine ⟨?_, rfl, rfl, rfl⟩
  simpa [ServerState.setError] using hsnap

/-- Witness for `setError_preserves_snapshot` at a concrete state holding a
concrete committed snapshot. -/
theorem setError_preserves_snapshot_witness :
    ((ServerState.mk (some ⟨"t", 0, ⟨0, 0, 0⟩, []⟩) none true).setError
        "boom").cachedData = some ⟨"t", 0, ⟨0, 0, 0⟩, []⟩ ∧
    ((ServerState.mk (some ⟨"t", 0, ⟨0, 0, 0⟩, []⟩) none true).setError
        "boom").lastError = some "boom" ∧
    ((ServerState.mk (some ⟨"t", 0, ⟨0, 0, 0⟩, []⟩) none true).setError
        "boom").isUpdating = false ∧
    ((((ServerState.mk (some ⟨"t", 0, ⟨0, 0, 0⟩, []⟩) none
        true).updateCache ⟨"t", 0, ⟨0, 0, 0⟩, []⟩).startUpdate).setError
        "boom").cachedData = some ⟨"t", 0, ⟨0, 0, 0⟩, []⟩ :=
  setError_preserves_snapshot _ _ "boom" rfl

/-- C6: if a refresh is already in progress, the `autoRefreshData` guard
returns at once initiating nothing; and any number of consecutive
`autoRefreshBegin` calls with no completion in between initiates at most one
fetch cycle — exactly one when starting idle. -/
theorem autoRefreshBegin_single_flight (s : ServerState) (n : Nat) :
    (s.isUpdating = true → autoRefreshBegin s = (s, false)) ∧
    (runBegins s n).2 ≤ 1 ∧
    (s.isUpdating = false → 1 ≤ n → (runBegins s n).2 = 1) := by
  have step : ∀ t : ServerState, t.isUpdating = true →
      ∀ m : Nat, (runBegins t m).2 = 0 := by
    intro t ht m
    induction m generalizing t with
    | zero => simp [runBegins]
    | succ k ih =>
        simp [runBegins, autoRefreshBegin, ht]
        exact ih t ht
  refine ⟨fun h => by simp [autoRefreshBegin, h], ?_, ?_⟩
  · cases n with
    | zero => simp [runBegins]
    | succ k =>
        by_cases h : s.isUpdating
        · simp [runBegins, autoRefreshBegin, h, step s h k]
        · have : (s.startUpdate).isUpdating = true := rfl
          simp [runBegins, autoRefreshBegin, h, step s.startUpdate this k]
  · intro hidle hn
    cases n with
    | zero => omega
    | succ k =>
        have : (s.startUpdate).isUpdating = true := rfl
        simp [runBegins, autoRefreshBegin, hidle, step s.startUpdate this k]

/-! ### Lemmas about the `batchProcess` loop -/

/-- For `concurrency ≥ 1` the loop exits once fuel exceeds the number of
items not yet consumed, and the collected results are exactly the processed
remaining items appended to the accumulator — chunking is invisible in the
output. -/
theorem batchLoop_complete_of_one_le {T R : Type} (p : T → R) (items : List T)
    (c : Int) (hc : 1 ≤ c) :
    ∀ (fuel : Nat) (i : Nat) (acc : BatchRun R), items.length - i < fuel →
      ∃ r, batchLoop p items c fuel (i : Int) acc = some r ∧
        r.results = acc.results ++ (items.drop i).map p := by
  intro fuel
  induction fuel with
  | zero => intro i acc h; omega
  | succ fuel ih =>
      intro i acc h
      by_cases hi : (i : Int) < (items.length : Int)
      · have hi' : i < items.length := by exact_mod_cast hi
        rw [batchLoop, if_pos hi]
        have hcast : (i : Int) + c = ((i + c.toNat : Nat) : Int) := by omega
        rw [hcast]
        have hfuel : items.length - (i + c.toNat) < fuel := by omega
        obtain ⟨r, hr, hres⟩ := ih (i + c.toNat) _ hfuel
        refine ⟨r, hr, ?_⟩
        rw [hres]
        have hnat : ((i : Int)).toNat = i := by omega
        rw [hnat, List.append_assoc]
        congr 1
        rw [← List.map_append]
        congr 1
        rw [← List.drop_drop]
        exact List.take_append_drop _ _
      · rw [batchLoop, if_neg hi]
        refine ⟨acc, rfl, ?_⟩
        have : items.length ≤ i := by omega
        simp [List.drop_eq_nil_of_le this]

/-- A pacing delay is awaited exactly when another chunk follows, so a
completed run that entered the loop has one fewer delay than chunks. -/
theorem batchLoop_delays_eq {T R : Type} (p : T → R) (items : List T) (c : Int) :
    ∀ (fuel : Nat) (i : Int) (acc r : BatchRun R),
      i < (items.length : Int) →
      batchLoop p items c fuel i acc = some r →
      r.delays + acc.chunkSizes.length + 1 = acc.delays + r.chunkSizes.length := by
  intro fuel
  induction fuel with
  | zero => intro i acc r hi h; simp [batchLoop] at h
  | succ fuel ih =>
      intro i acc r hi h
      rw [batchLoop, if_pos hi] at h
      by_cases hnext : i + c < (items.length : Int)
      · rw [if_pos hnext] at h
        have := ih (i + c) _ r hnext h
        simp only [List.length_append, List.length_cons, List.length_nil] at this ⊢
        omega
      · rw [if_neg hnext] at h
        cases fuel with
        | zero => simp [batchLoop] at h
        | succ fuel' =>
            rw [batchLoop, if_neg hnext] at h
            injection h with h
            subst h
            simp only [List.length_append, List.length_cons, List.length_nil]
            omega

/-- Every chunk issued by the loop has at most `concurrency` elements: the
concurrency cap on simultaneously pending tasks. -/
theorem batchLoop_chunk_bound {T R : Type} (p : T → R) (items : List T) (c : Int) :
    ∀ (fuel : Nat) (i : Int) (acc r : BatchRun R),
      (∀ s ∈ acc.chunkSizes, s ≤ c.toNat) →
      batchLoop p items c fuel i acc = some r →
      ∀ s ∈ r.chunkSizes, s ≤ c.toNat := by
  intro fuel
  induction fuel with
  | zero => intro i acc r hacc h; simp [batchLoop] at h
  | succ fuel ih =>
      intro i acc r hacc h
      rw [batchLoop] at h
      by_cases hi : i < (items.length : Int)
      · rw [if_pos hi] at h
        refine ih (i + c) _ r ?_ h
        intro s hs
        rcases List.mem_append.mp hs with hs | hs
        · exact hacc s hs
        · have : s = ((items.drop i.toNat).take c.toNat).length :=
            List.mem_singleton.mp hs
          subst this
          exact List.length_take_le _ _
      · rw [if_neg hi] at h
        injection h with h
        subst h
        exact hacc

/-- For `concurrency ≤ 0` and a non-empty item list the loop condition never
becomes false, so no amount of fuel completes the loop: the call never
terminates (and never raises). -/
theorem batchLoop_nonterm {T R : Type} (p : T → R) (items : List T) (c : Int)
    (hc : c ≤ 0) (hne : items ≠ []) :
    ∀ (fuel : Nat) (i : Int) (acc : BatchRun R), i ≤ 0 →
      batchLoop p items c fuel i acc = none := by
  intro fuel
  induction fuel with
  | zero => intro i acc hi; rfl
  | succ fuel ih =>
      intro i acc hi
      have hlen : 0 < items.length := List.length_pos.mpr hne
      have hi' : i < (items.length : Int) := by omega
      rw [batchLoop, if_pos hi']
      exact ih (i + c) _ (by omega)

/-- C10: for every finite item list, `batchProcess` with `concurrency ≥ 1`
terminates (here: completes within `items.length + 1` loop iterations) and
returns one result per item in input order; with `concurrency ≤ 0` and a
non-empty list the chunking loop never terminates — no fuel completes it —
rather than raising an error. -/
theorem batchProcess_termination {T R : Type} (items : List T) (p : T → R)
    (c : Int) :
    (1 ≤ c → ∃ r, batchProcess items p c (items.length + 1) = some r ∧
        r.results = items.map p) ∧
    (c ≤ 0 → items ≠ [] → ∀ fuel, batchProcess items p c fuel = none) := by
  constructor
  · intro hc
    obtain ⟨r, hr, hres⟩ := batchLoop_complete_of_one_le p items c hc
      (items.length + 1) 0 ⟨[], [], 0⟩ (by omega)
    refine ⟨r, ?_, ?_⟩
    · simpa [batchProcess] using hr
    · simpa using hres
  · intro hc hne fuel
    exact batchLoop_nonterm p items c hc hne fuel 0 _ le_rfl

/-- Witness for `batchProcess_termination` on the concrete list `[10, 20, 30]`
with concurrency `2` (terminates with mapped results) and `0` (diverges). -/
theorem batchProcess_termination_witness :
    (∃ r, batchProcess [10, 20, 30] (fun x => x + 1) 2
        ([10, 20, 30].length + 1) = some r ∧
        r.results = [10, 20, 30].map (fun x => x + 1)) ∧
    (∀ fuel, batchProcess [10, 20, 30] (fun x : Nat => x + 1) 0 fuel = none) :=
  ⟨(batchProcess_termination [10, 20, 30] (fun x => x + 1) 2).1 (by decide),
    fun fuel => (batchProcess_termination [10, 20, 30] (fun x => x + 1) 0).2
      (by decide) (by decide) fuel⟩

/-- C4 counterexample: for 25 items with concurrency 10 the code awaits
exactly 2 pacing delays — after chunk 1 and chunk 2, none after the final
chunk — not 3 as the claim states (`ceil(25/10) − 1 = 2`). -/
theorem batchProcess_25_10_two_delays :
    batchProcess (List.range 25) (fun x => x) 10 26
      = some ⟨List.range 25, [10, 10, 5], 2⟩ ∧ (2 : Nat) ≠ 3 := by
  exact ⟨by decide, by decide⟩

/-- C4 amended: `batchProcess` inserts a pacing delay between consecutive
chunks but not after the final chunk (on every completed run over a non-empty
list, delays = number of chunks − 1), never lets more than `concurrency`
tasks be pending simultaneously, and for 25 items with concurrency 10 exactly
2 pacing delays (ceil(25/10) − 1 gaps) elapse. -/
theorem batchProcess_pacing {T R : Type} (items : List T) (p : T → R)
    (c : Int) (fuel : Nat) (r : BatchRun R)
    (hrun : batchProcess items p c fuel = some r) (hne : items ≠ []) :
    (r.delays + 1 = r.chunkSizes.length ∧ ∀ s ∈ r.chunkSizes, s ≤ c.toNat) ∧
    (∃ r25 : BatchRun Nat,
      batchProcess (List.range 25) (fun x => x) 10 26 = some r25 ∧
      r25.delays = 2 ∧ ∀ s ∈ r25.chunkSizes, s ≤ 10) := by
  refine ⟨⟨?_, ?_⟩, ⟨⟨List.range 25, [10, 10, 5], 2⟩, by decide, rfl, by decide⟩⟩
  · have hlen : 0 < items.length := List.length_pos.mpr hne
    have hi : (0 : Int) < (items.length : Int) := by exact_mod_cast hlen
    have := batchLoop_delays_eq p items c fuel 0 ⟨[], [], 0⟩ r hi hrun
    simpa using this
  · exact batchLoop_chunk_bound p items c fuel 0 ⟨[], [], 0⟩ r (by simp) hrun

/-- Witness for `batchProcess_pacing`: the run on `[1, 2, 3]` with
concurrency 2 has chunks of sizes `[2, 1]` and a single pacing delay. -/
theorem batchProcess_pacing_witness :
    (((⟨[2, 3, 4], [2, 1], 1⟩ : BatchRun Nat).delays + 1
        = (⟨[2, 3, 4], [2, 1], 1⟩ : BatchRun Nat).chunkSizes.length ∧
      ∀ s ∈ (⟨[2, 3, 4], [2, 1], 1⟩ : BatchRun Nat).chunkSizes,
        s ≤ (2 : Int).toNat) ∧
    (∃ r25 : BatchRun Nat,
      batchProcess (List.range 25) (fun x => x) 10 26 = some r25 ∧
      r25.delays = 2 ∧ ∀ s ∈ r25.chunkSizes, s ≤ 10)) :=
  batchProcess_pacing [1, 2, 3] (fun x => x + 1) 2 4 ⟨[2, 3, 4], [2, 1], 1⟩
    (by decide) (by decide)

/-- Witness for `autoRefreshBegin_single_flight`: two back-to-back calls from
the idle empty state initiate exactly one fetch cycle. -/
theorem autoRefreshBegin_single_flight_witness :
    (((ServerState.mk none none true).isUpdating = true →
        autoRefreshBegin ⟨none, none, true⟩ = (⟨none, none, true⟩, false)) ∧
      (runBegins ⟨none, none, true⟩ 2).2 ≤ 1 ∧
      ((ServerState.mk none none true).isUpdating = false →
        1 ≤ 2 → (runBegins ⟨none, none, true⟩ 2).2 = 1)) ∧
    (runBegins ⟨none, none, false⟩ 2).2 = 1 :=
  ⟨autoRefreshBegin_single_flight ⟨none, none, true⟩ 2,
    (autoRefreshBegin_single_flight ⟨none, none, false⟩ 2).2.2 rfl (by decide)⟩

/-! ### Theorems: the usage client retry policy (C5) -/

/-- C5: `fetchApiKeyData` retries only on HTTP 401, up to 2 extra attempts
with linearly increasing sleeps (1000 ms then 2000 ms); 401/401/2xx-with-body
yields a `UsageRecord` having slept 3000 ms; any other non-2xx status, a body
missing `usage.standard`, or a network-level throw yields an `ErrorRecord`
immediately with no sleep; three 401s give up with an `ErrorRecord`. The
function is total into `ApiKeyResult`, so per-key failures never raise. -/
theorem fetchApiKeyData_retry_policy (fmtDate : Option Int → String)
    (id : String) (key : List Char) (li : Bool) :
    (∀ (fetchSeq : Nat → FetchOutcome) (b0 b1 : BodyOutcome) (s2 : Nat)
        (u : UsagePayload) (std : StandardUsage),
      fetchSeq 0 = .resp 401 b0 → fetchSeq 1 = .resp 401 b1 →
      fetchSeq 2 = .resp s2 (.parsed (some u)) → responseOk s2 = true →
      u.standard = some std →
      fetchApiKeyData fetchSeq fmtDate id key li 0 =
        (.usage ⟨id, getDisplayKey key li, fmtDate u.startDate,
          fmtDate u.endDate, std.orgTotalTokensUsed.getD 0,
          std.totalAllowance.getD 0, std.usedRatio.getD 0⟩, 3000)) ∧
    (∀ (fetchSeq : Nat → FetchOutcome) (s : Nat) (b : BodyOutcome),
      fetchSeq 0 = .resp s b → responseOk s = false → s ≠ 401 →
      fetchApiKeyData fetchSeq fmtDate id key li 0 =
        (.err ⟨id, getDisplayKey key li, "HTTP " ++ toString s⟩, 0)) ∧
    (∀ fetchSeq : Nat → FetchOutcome, fetchSeq 0 = .throws →
      fetchApiKeyData fetchSeq fmtDate id key li 0 =
        (.err ⟨id, getDisplayKey key li, "Failed to fetch"⟩, 0)) ∧
    (∀ (fetchSeq : Nat → FetchOutcome) (s : Nat),
      fetchSeq 0 = .resp s (.parsed none) → responseOk s = true →
      fetchApiKeyData fetchSeq fmtDate id key li 0 =
        (.err ⟨id, getDisplayKey key li, "Invalid API response"⟩, 0)) ∧
    (∀ (fetchSeq : Nat → FetchOutcome) (s : Nat) (u : UsagePayload),
      fetchSeq 0 = .resp s (.parsed (some u)) → responseOk s = true →
      u.standard = none →
      fetchApiKeyData fetchSeq fmtDate id key li 0 =
        (.err ⟨id, getDisplayKey key li, "Invalid API response"⟩, 0)) ∧
    (∀ (fetchSeq : Nat → FetchOutcome) (b0 b1 b2 : BodyOutcome),
      fetchSeq 0 = .resp 401 b0 → fetchSeq 1 = .resp 401 b1 →
      fetchSeq 2 = .resp 401 b2 →
      fetchApiKeyData fetchSeq fmtDate id key li 0 =
        (.err ⟨id, getDisplayKey key li, "HTTP " ++ toString 401⟩, 3000)) := by
  refine ⟨?_, ?_, ?_, ?_, ?_, ?_⟩
  · intro fetchSeq b0 b1 s2 u std h0 h1 h2 hok hstd
    have hb : ¬ (200 ≤ s2 → 299 < s2) := by
      simp [responseOk] at hok; omega
    simp [fetchApiKeyData, h0, h1, h2, hstd, responseOk, fetchMaxRetries, hb]
  · intro fetchSeq s b h0 hok hne
    simp [fetchApiKeyData, h0, hok, hne, fetchMaxRetries]
  · intro fetchSeq h0
    simp [fetchApiKeyData, h0]
  · intro fetchSeq s h0 hok
    have hb : ¬ (200 ≤ s → 299 < s) := by
      simp [responseOk] at hok; omega
    simp [fetchApiKeyData, h0, responseOk, hb]
  · intro fetchSeq s u h0 hok hstd
    have hb : ¬ (200 ≤ s → 299 < s) := by
      simp [responseOk] at hok; omega
    simp [fetchApiKeyData, h0, responseOk, hb, hstd]
  · intro fetchSeq b0 b1 b2 h0 h1 h2
    simp [fetchApiKeyData, h0, h1, h2, responseOk, fetchMaxRetries]

/-- Both branches of `fetchApiKeyData` return the caller's `id` unchanged,
which justifies the id-preservation hypothesis of the aggregation claims. -/
theorem fetchApiKeyData_rid (fetchSeq : Nat → FetchOutcome)
    (fmtDate : Option Int → String) (id : String) (key : List Char)
    (li : Bool) :
    ∀ (n rc : Nat), fetchMaxRetries - rc ≤ n →
      ((fetchApiKeyData fetchSeq fmtDate id key li rc).1).rid = id := by
  intro n
  induction n with
  | zero =>
      intro rc h
      rw [fetchApiKeyData]
      cases fetchSeq rc with
      | throws => simp [ApiKeyResult.rid]
      | resp status body =>
          simp only []
          split
          · split
            · next hcond => omega
            · simp [ApiKeyResult.rid]
          · rcases body with _ | (_ | usage)
            · simp [ApiKeyResult.rid]
            · simp [ApiKeyResult.rid]
            · rcases hs : usage.standard with _ | std <;>
                simp [hs, ApiKeyResult.rid]
  | succ n ih =>
      intro rc h
      rw [fetchApiKeyData]
      cases fetchSeq rc with
      | throws => simp [ApiKeyResult.rid]
      | resp status body =>
          simp only []
          split
          · split
            · next hcond =>
                simpa using ih (rc + 1) (by omega)
            · simp [ApiKeyResult.rid]
          · rcases body with _ | (_ | usage)
            · simp [ApiKeyResult.rid]
            · simp [ApiKeyResult.rid]
            · rcases hs : usage.standard with _ | std <;>
                simp [hs, ApiKeyResult.rid]

/-! ### Lemmas about the aggregation pipeline -/

instance : IsTotal ApiUsageData byRemainingDesc :=
  ⟨fun a b => le_total (remainingOf b) (remainingOf a)⟩

instance : IsTrans ApiUsageData byRemainingDesc :=
  ⟨fun _ _ _ h1 h2 => le_trans h2 h1⟩

/-- Wrapping success payloads back into results and projecting out again is
the identity. -/
theorem filterMap_usageOf_map_usage (l : List ApiUsageData) :
    (l.map ApiKeyResult.usage).filterMap usageOf = l := by
  induction l with
  | nil => rfl
  | cons a l ih => simp [usageOf, ih]

/-- Projecting the success payloads and re-wrapping them gives exactly
`results.filter(isApiUsageData)`. -/
theorem map_usage_filterMap_usageOf (l : List ApiKeyResult) :
    (l.filterMap usageOf).map ApiKeyResult.usage = l.filter isApiUsageData := by
  induction l with
  | nil => rfl
  | cons a l ih => cases a <;> simp [usageOf, isApiUsageData, ih]

/-- A list of wrapped success payloads has no error entries. -/
theorem filter_hasError_map_usage (l : List ApiUsageData) :
    (l.map ApiKeyResult.usage).filter hasError = [] := by
  induction l with
  | nil => rfl
  | cons a l ih => simp [hasError, isApiUsageData, ih]

/-- A list of wrapped success payloads is untouched by the success filter. -/
theorem filter_isUsage_map_usage (l : List ApiUsageData) :
    (l.map ApiKeyResult.usage).filter isApiUsageData = l.map ApiKeyResult.usage := by
  induction l with
  | nil => rfl
  | cons a l ih => simp [isApiUsageData, ih]

/-- Error entries contain no success entries. -/
theorem filter_isUsage_filter_hasError (l : List ApiKeyResult) :
    (l.filter hasError).filter isApiUsageData = [] := by
  induction l with
  | nil => rfl
  | cons a l ih => cases a <;> simp [hasError, isApiUsageData, ih]

/-- Filtering for errors is idempotent. -/
theorem filter_hasError_idem (l : List ApiKeyResult) :
    (l.filter hasError).filter hasError = l.filter hasError := by
  induction l with
  | nil => rfl
  | cons a l ih => cases a <;> simp [hasError, isApiUsageData, ih]

/-- Error entries project to no success payloads. -/
theorem filterMap_usageOf_filter_hasError (l : List ApiKeyResult) :
    (l.filter hasError).filterMap usageOf = [] := by
  induction l with
  | nil => rfl
  | cons a l ih => cases a <;> simp [hasError, isApiUsageData, usageOf, ih]

/-- The totals fold computes the three field-wise sums over the valid
results, on top of whatever is already in the accumulator. -/
theorem totals_foldl_eq (l : List ApiUsageData) (acc : UsageTotals) :
    l.foldl totalsStep acc =
      ⟨acc.total_orgTotalTokensUsed + (l.map (fun r => r.orgTotalTokensUsed)).sum,
       acc.total_totalAllowance + (l.map (fun r => r.totalAllowance)).sum,
       acc.totalRemaining + (l.map remainingOf).sum⟩ := by
  induction l generalizing acc with
  | nil => obtain ⟨x, y, z⟩ := acc; simp
  | cons a l ih =>
      obtain ⟨x, y, z⟩ := acc
      simp [totalsStep, ih, remainingOf]
      refine ⟨by ring, by ring, by ring⟩

/-! ### Theorems: aggregation shape (C1) and totals (C2) -/

/-- C1: the `data` field of `getAggregatedData` holds exactly one entry per
input credential (its ids are a permutation of the input ids, and its length
matches), all success records come first (the list is its success part
followed by its error part), the success part is sorted by remaining
descending, and the error part is the error results in input order. -/
theorem getAggregatedData_data_shape (keyPairs : List ApiKey)
    (fetchResult : ApiKey → ApiKeyResult) (update_time : String)
    (hid : ∀ k ∈ keyPairs, (fetchResult k).rid = k.id) :
    ((getAggregatedData keyPairs fetchResult update_time).data.map
        ApiKeyResult.rid).Perm (keyPairs.map ApiKey.id) ∧
    (getAggregatedData keyPairs fetchResult update_time).data.length
      = keyPairs.length ∧
    (getAggregatedData keyPairs fetchResult update_time).data =
      (getAggregatedData keyPairs fetchResult update_time).data.filter
          isApiUsageData ++
        (getAggregatedData keyPairs fetchResult update_time).data.filter
          hasError ∧
    List.Sorted byRemainingDesc
      ((getAggregatedData keyPairs fetchResult update_time).data.filterMap
        usageOf) ∧
    (getAggregatedData keyPairs fetchResult update_time).data.filter hasError
      = (keyPairs.map fetchResult).filter hasError := by
  by_cases hkp : keyPairs.length = 0
  · have : keyPairs = [] := List.length_eq_zero.mp hkp
    subst this
    simp [getAggregatedData, List.Sorted]
  · have hdata : (getAggregatedData keyPairs fetchResult update_time).data =
        (((keyPairs.map fetchResult).filterMap usageOf).insertionSort
            byRemainingDesc).map ApiKeyResult.usage ++
          (keyPairs.map fetchResult).filter hasError := by
      simp [getAggregatedData, hkp]
    have hperm1 : ((((keyPairs.map fetchResult).filterMap usageOf).insertionSort
        byRemainingDesc).map ApiKeyResult.usage).Perm
          ((keyPairs.map fetchResult).filter isApiUsageData) := by
      rw [← map_usage_filterMap_usageOf]
      exact (List.perm_insertionSort byRemainingDesc _).map _
    have hfsplit : ((keyPairs.map fetchResult).filter isApiUsageData ++
        (keyPairs.map fetchResult).filter hasError).Perm
          (keyPairs.map fetchResult) := by
      have : (keyPairs.map fetchResult).filter hasError =
          (keyPairs.map fetchResult).filter (fun a => !isApiUsageData a) := rfl
      rw [this]
      exact List.filter_append_perm isApiUsageData (keyPairs.map fetchResult)
    have hpermD : (getAggregatedData keyPairs fetchResult update_time).data.Perm
        (keyPairs.map fetchResult) := by
      rw [hdata]
      exact ((hperm1.append_right _).trans hfsplit)
    refine ⟨?_, ?_, ?_, ?_, ?_⟩
    · have h1 := hpermD.map ApiKeyResult.rid
      have h2 : (keyPairs.map fetchResult).map ApiKeyResult.rid =
          keyPairs.map ApiKey.id := by
        rw [List.map_map]
        exact List.map_congr_left hid
      rw [h2] at h1
      exact h1
    · rw [hpermD.length_eq, List.length_map]
    · rw [hdata, List.filter_append, List.filter_append,
        filter_isUsage_map_usage, filter_hasError_map_usage,
        filter_isUsage_filter_hasError, filter_hasError_idem]
      simp
    · rw [hdata, List.filterMap_append, filterMap_usageOf_map_usage,
        filterMap_usageOf_filter_hasError, List.append_nil]
      exact List.sorted_insertionSort byRemainingDesc _
    · rw [hdata, List.filter_append, filter_hasError_map_usage,
        filter_hasError_idem, List.nil_append]

/-- Witness for `getAggregatedData_data_shape`: on three concrete keys where
key b errors and keys a, c succeed, the output ids are a permutation of the
input ids. -/
theorem getAggregatedData_data_shape_witness :
    ((getAggregatedData
        [⟨"a", ['a']⟩, ⟨"b", ['b']⟩, ⟨"c", ['c']⟩]
        (fun k =>
          if k.id = "a" then .usage ⟨"a", ['a'], "s", "e", 0, 10, 0⟩
          else if k.id = "b" then .err ⟨"b", ['b'], "HTTP 500"⟩
          else .usage ⟨"c", ['c'], "s", "e", 0, 30, 0⟩)
        "t").data.map ApiKeyResult.rid).Perm
      ([⟨"a", ['a']⟩, ⟨"b", ['b']⟩, ⟨"c", ['c']⟩].map ApiKey.id) :=
  (getAggregatedData_data_shape
    [⟨"a", ['a']⟩, ⟨"b", ['b']⟩, ⟨"c", ['c']⟩]
    (fun k =>
      if k.id = "a" then .usage ⟨"a", ['a'], "s", "e", 0, 10, 0⟩
      else if k.id = "b" then .err ⟨"b", ['b'], "HTTP 500"⟩
      else .usage ⟨"c", ['c'], "s", "e", 0, 30, 0⟩)
    "t" (by decide)).1

/-- C2: the totals of `getAggregatedData` are the sums of `used` and
`allowance` over success records only, with `totalRemaining` the sum of the
per-key floored remaining (errors contribute zero); and `totalRemaining` is
not `max 0 (totalAllowance − totalUsed)` — on an input with an over-allowance
key the two formulas differ. -/
theorem getAggregatedData_totals (keyPairs : List ApiKey)
    (fetchResult : ApiKey → ApiKeyResult) (update_time : String) :
    ((getAggregatedData keyPairs fetchResult update_time).totals.total_orgTotalTokensUsed
        = (((keyPairs.map fetchResult).filterMap usageOf).map
            (fun r => r.orgTotalTokensUsed)).sum ∧
      (getAggregatedData keyPairs fetchResult update_time).totals.total_totalAllowance
        = (((keyPairs.map fetchResult).filterMap usageOf).map
            (fun r => r.totalAllowance)).sum ∧
      (getAggregatedData keyPairs fetchResult update_time).totals.totalRemaining
        = (((keyPairs.map fetchResult).filterMap usageOf).map remainingOf).sum) ∧
    (∃ (kp : List ApiKey) (oracle : ApiKey → ApiKeyResult) (ut : String),
      (getAggregatedData kp oracle ut).totals.totalRemaining ≠
        max 0 ((getAggregatedData kp oracle ut).totals.total_totalAllowance
          - (getAggregatedData kp oracle ut).totals.total_orgTotalTokensUsed)) := by
  constructor
  · by_cases hkp : keyPairs.length = 0
    · have : keyPairs = [] := List.length_eq_zero.mp hkp
      subst this
      simp [getAggregatedData]
    · have htot : (getAggregatedData keyPairs fetchResult update_time).totals =
          ((keyPairs.map fetchResult).filterMap usageOf).foldl totalsStep
            ⟨0, 0, 0⟩ := by
        simp [getAggregatedData, hkp]
      rw [htot, totals_foldl_eq]
      simp
  · refine ⟨[⟨"a", []⟩, ⟨"b", []⟩],
      fun k =>
        if k.id = "a" then .usage ⟨"a", [], "s", "e", 10, 5, 0⟩
        else .usage ⟨"b", [], "s", "e", 0, 5, 0⟩, "t", ?_⟩
    decide

/-- Witness for `fetchApiKeyData_retry_policy`: a concrete attempt sequence
401, 401, then 200 with a well-formed body, yielding a success record after
3000 ms of back-off. -/
theorem fetchApiKeyData_retry_policy_witness :
    fetchApiKeyData
      (fun n => match n with
        | 0 => .resp 401 .jsonThrows
        | 1 => .resp 401 .jsonThrows
        | _ => .resp 200 (.parsed (some ⟨some 1, some 2, some ⟨some 7, some 9, some 0⟩⟩)))
      (fun _ => "d") "k1" "fk-ABCDEFGHIJKL".toList false 0 =
      (.usage ⟨"k1", getDisplayKey "fk-ABCDEFGHIJKL".toList false, "d", "d",
        (Option.getD (some 7) 0), (Option.getD (some 9) 0),
        (Option.getD (some 0) 0)⟩, 3000) :=
  (fetchApiKeyData_retry_policy (fun _ => "d") "k1"
      "fk-ABCDEFGHIJKL".toList false).1
    (fun n => match n with
      | 0 => .resp 401 .jsonThrows
      | 1 => .resp 401 .jsonThrows
      | _ => .resp 200 (.parsed (some ⟨some 1, some 2, some ⟨some 7, some 9, some 0⟩⟩)))
    .jsonThrows .jsonThrows 200 ⟨some 1, some 2, some ⟨some 7, some 9, some 0⟩⟩
    ⟨some 7, some 9, some 0⟩ rfl rfl rfl rfl rfl

end DroidApikey
